import Mathlib

/-!
Verification of the dependency-scanner core (`dependency-scanner.js`).

The JavaScript source is shallowly embedded: JS objects become association
lists of `String × String` built with an insert-or-overwrite operation
(`objInsert`), reproducing JS property-assignment semantics (an existing key
keeps its position and gets the new value, a fresh key is appended).  Object
property lookup becomes `objGet` (first entry with the key).  JS truthiness of
a string-or-undefined value is `truthyS` (only `undefined` and the empty
string are falsy).  Enrichment I/O is a parameter (`EnrichClient`): `meta`
returns `none` exactly when `getVersionInfo`'s fetch/parse fails, `adv`
distinguishes a successful advisory payload, a 404, and any other failure.
-/

namespace NpmScan

/-- JS object property lookup: value of the entry with key `k`, if present. -/
def objGet (m : List (String × String)) (k : String) : Option String :=
  (m.find? (fun e => e.1 == k)).map (fun e => e.2)

/-- JS property assignment `m[k] = v`: overwrite in place if `k` is present,
append otherwise. -/
def objInsert (m : List (String × String)) (k v : String) : List (String × String) :=
  if m.any (fun e => e.1 == k) then
    m.map (fun e => if e.1 == k then (k, v) else e)
  else
    m ++ [(k, v)]

/-- Assign every entry of `xs` into the object `acc`, in order. -/
def objInsertAll (acc : List (String × String)) (xs : List (String × String)) :
    List (String × String) :=
  xs.foldl (fun m e => objInsert m e.1 e.2) acc

/-- JS object spread `\x7b...a, ...b\x7d`: assign all of `a`, then all of `b`,
into a fresh object. -/
def mergeObj (a b : List (String × String)) : List (String × String) :=
  objInsertAll (objInsertAll [] a) b

/-- JS truthiness of an optional string: `undefined` and `""` are falsy. -/
def truthyS (o : Option String) : Bool :=
  match o with
  | some s => s != ""
  | none => false

/-- Parsed `package.json`: the two dependency groups (absent group = `[]`). -/
structure PackageJson where
  dependencies : List (String × String)
  devDependencies : List (String × String)

/-- One entry of the lock file's `packages` table (`version` may be absent). -/
structure LockEntry where
  version : Option String

/-- Parsed `package-lock.json`: the `packages` table keyed by installation
path (absent table = `[]`). -/
structure PackageLock where
  packages : List (String × LockEntry)

/-- `getDependencies`: merge `dependencies` and `devDependencies` by object
spread (later group overwrites earlier on name collision). -/
def getDependencies (pkg : PackageJson) : List (String × String) :=
  mergeObj pkg.dependencies pkg.devDependencies

/-- The characters of the installation-directory marker stripped by the
normalizer (`'node_modules/'`). -/
def nmDir : List Char := "node_modules/".data

/-- JS `path.replace('node_modules/', '')`: remove the first occurrence of
the marker, scanning left to right. -/
def stripFirstNM : List Char → List Char
  | [] => []
  | c :: cs =>
    if nmDir.isPrefixOf (c :: cs) then (c :: cs).drop nmDir.length
    else c :: stripFirstNM cs

/-- JS `s.split('/').pop()`: the suffix after the last path separator. -/
def afterLastSlash (l : List Char) : List Char :=
  (l.reverse.takeWhile (fun c => c != '/')).reverse

/-- The body of the name normalization in `getAllInstalledPackages`:
strip the first `'node_modules/'`, then keep the final path segment for
nested unscoped remainders, and the whole remainder otherwise. -/
def normalizeChars (path : List Char) : List Char :=
  let packageName := stripFirstNM path
  if packageName.contains '/' && ! (packageName.head? == some '@') then
    afterLastSlash packageName
  else
    packageName

/-- Canonical package name derived from a lock-file installation path. -/
def normalizedName (path : String) : String :=
  String.mk (normalizeChars path.data)

/-- The lock-file walk of `getAllInstalledPackages`: skip the root entry and
entries with an absent or falsy `version`, and assign
`allPackages[normalizedName] = version` in table order. -/
def indexLock (l : PackageLock) : List (String × String) :=
  l.packages.foldl
    (fun acc e =>
      if e.1 == "" then acc
      else
        match e.2.version with
        | some v => if v == "" then acc else objInsert acc (normalizedName e.1) v
        | none => acc)
    []

/-- `getAllInstalledPackages`: index the lock file, or fall back to the
manifest's merged dependency mapping when the lock file is unreadable
(`lock = none`). -/
def getAllInstalledPackages (lock : Option PackageLock) (pkg : PackageJson) :
    List (String × String) :=
  match lock with
  | some l => indexLock l
  | none => getDependencies pkg

/-- `getDependencyTypes`: label every installed package `'direct'` when the
merged declared mapping holds a truthy value under its name, `'transitive'`
otherwise. -/
def getDependencyTypes (pkg : PackageJson) (lock : Option PackageLock) :
    List (String × String) :=
  let directDeps := mergeObj pkg.dependencies pkg.devDependencies
  let allDeps := getAllInstalledPackages lock pkg
  allDeps.foldl
    (fun acc e =>
      objInsert acc e.1
        (if truthyS (objGet directDeps e.1) then "direct" else "transitive"))
    []

/-- An advisory as projected by `scanDependencies` (every field may be absent
in the registry payload). -/
structure Advisory where
  id : Option String
  title : Option String
  severity : Option String
  cvss : Option Rat
  summary : Option String
deriving DecidableEq

/-- Version metadata returned by the registry (fields may be absent). -/
structure VersionInfo where
  publishedAt : Option String
  isDefault : Option Bool
deriving DecidableEq

/-- Outcome of the advisories fetch: a successful payload (whose
`advisories` field may be absent), a 404, or any other failure. -/
inductive AdvOutcome where
  | ok (advisories : Option (List Advisory))
  | notFound
  | failed

/-- The enrichment client (remote registry): `meta` is `none` exactly when
the version-metadata fetch fails, `adv` is the advisories-fetch outcome. -/
structure EnrichClient where
  meta : String → String → Option VersionInfo
  adv : String → String → AdvOutcome

/-- One character is a semver range marker (caret or tilde). -/
def isMarker (c : Char) : Bool := c == '^' || c == '~'

/-- JS `version.replace(/[\x5e~]/, '')`: delete the first caret or tilde,
scanning left to right; every other character is kept. -/
def stripMarker : List Char → List Char
  | [] => []
  | c :: cs => if isMarker c then cs else c :: stripMarker cs

/-- The `cleanVersion` computed by `getVersionInfo` and `getVulnerabilities`. -/
def cleanVersion (v : String) : String :=
  String.mk (stripMarker v.data)

/-- `getVersionInfo`: query the registry with the cleaned version; `none`
models the catch branch (any fetch/parse failure). -/
def getVersionInfo (client : EnrichClient) (packageName version : String) :
    Option VersionInfo :=
  client.meta packageName (cleanVersion version)

/-- Collapse an advisories-fetch outcome the way `getVulnerabilities` does:
missing payload, 404 and every failure all become the empty list. -/
def advisoriesOf (o : AdvOutcome) : List Advisory :=
  match o with
  | .ok (some advisories) => advisories
  | .ok none => []
  | .notFound => []
  | .failed => []

/-- `getVulnerabilities`: query the registry with the cleaned version and
degrade every non-payload outcome to the empty list. -/
def getVulnerabilities (client : EnrichClient) (packageName version : String) :
    List Advisory :=
  advisoriesOf (client.adv packageName (cleanVersion version))

/-- One result record pushed by the `scanDependencies` loop. -/
structure ScanRecord where
  package : String
  currentVersion : String
  dependencyType : String
  publishedAt : String
  isDefault : Bool
  vulnerabilities : List Advisory
  vulnerabilityCount : Nat
deriving DecidableEq

/-- JS `versionInfo?.publishedAt || 'Unknown'` given the metadata object. -/
def orUnknown (o : Option String) : String :=
  match o with
  | some s => if s == "" then "Unknown" else s
  | none => "Unknown"

/-- The record built for one `(packageName, version)` entry in the
`scanDependencies` loop body. -/
def recordFor (client : EnrichClient) (types : List (String × String))
    (e : String × String) : ScanRecord :=
  let versionInfo := getVersionInfo client e.1 e.2
  let vulnerabilities := getVulnerabilities client e.1 e.2
  { package := e.1
    currentVersion := e.2
    dependencyType :=
      match objGet types e.1 with
      | some t => if t == "" then "direct" else t
      | none => "direct"
    publishedAt :=
      match versionInfo with
      | some vi => orUnknown vi.publishedAt
      | none => "Unknown"
    isDefault :=
      match versionInfo with
      | some vi => vi.isDefault.getD false
      | none => false
    vulnerabilities := vulnerabilities
    vulnerabilityCount := vulnerabilities.length }

/-- The `scanDependencies` loop: push one record per dependency entry, in
entry order. -/
def scanLoop (client : EnrichClient) (types : List (String × String))
    (deps : List (String × String)) : List ScanRecord :=
  deps.foldl (fun results e => results ++ [recordFor client types e]) []

/-- `scanDependencies`: choose the package set and the classification map
according to `includeTransitive`, then run the loop. -/
def scanDependencies (client : EnrichClient) (pkg : PackageJson)
    (lock : Option PackageLock) (includeTransitive : Bool) : List ScanRecord :=
  let dependencies :=
    if includeTransitive then getAllInstalledPackages lock pkg
    else getDependencies pkg
  let types := if includeTransitive then getDependencyTypes pkg lock else []
  scanLoop client types dependencies

/-- The `summary` object computed by `saveResults`. -/
structure ScanSummary where
  totalPackages : Nat
  directDependencies : Nat
  transitiveDependencies : Nat
  vulnerablePackages : Nat
  vulnerableDirect : Nat
  vulnerableTransitive : Nat
deriving DecidableEq

/-- The report object persisted by `saveResults`. -/
structure ScanReport where
  scanDate : String
  summary : ScanSummary
  results : List ScanRecord
deriving DecidableEq

/-- The report construction in `saveResults` (the scan date is the ambient
clock value, passed in). -/
def buildReport (scanDate : String) (results : List ScanRecord) : ScanReport :=
  let vulnerablePackages := results.filter (fun r => decide (0 < r.vulnerabilityCount))
  let directPackages := results.filter (fun r => r.dependencyType == "direct")
  let transitivePackages := results.filter (fun r => r.dependencyType == "transitive")
  { scanDate := scanDate
    summary :=
      { totalPackages := results.length
        directDependencies := directPackages.length
        transitiveDependencies := transitivePackages.length
        vulnerablePackages := vulnerablePackages.length
        vulnerableDirect :=
          (vulnerablePackages.filter (fun r => r.dependencyType == "direct")).length
        vulnerableTransitive :=
          (vulnerablePackages.filter (fun r => r.dependencyType == "transitive")).length }
    results := results }

/-- The "oldest dependencies" view of `generateReport`: drop records with the
unknown-date sentinel, sort ascending by parsed publication date (JS
`Array.sort` is stable; `parseDate` abstracts `new Date(...)`), keep the
first 5. -/
def oldestView (parseDate : String → Int) (results : List ScanRecord) :
    List ScanRecord :=
  ((results.filter (fun r => r.publishedAt != "Unknown")).mergeSort
      (fun a b => decide (parseDate a.publishedAt ≤ parseDate b.publishedAt))).take 5

/-- The structured document tree written by the report sink
(`JSON.stringify` output, modelled as a JSON value). -/
inductive Json where
  | str (s : String)
  | num (q : Rat)
  | bool (b : Bool)
  | arr (elems : List Json)
  | obj (fields : List (String × Json))

/-- Field lookup in a JSON object. -/
def jGet (fields : List (String × Json)) (k : String) : Option Json :=
  (fields.find? (fun e => e.1 == k)).map (fun e => e.2)

/-- A field that `JSON.stringify` drops when the value is absent. -/
def optField (k : String) (o : Option Json) : List (String × Json) :=
  match o with
  | some j => [(k, j)]
  | none => []

/-- Serialize one advisory (absent fields are omitted, as `JSON.stringify`
does for `undefined` values). -/
def encodeAdvisory (a : Advisory) : Json :=
  .obj (optField "id" (a.id.map .str) ++ optField "title" (a.title.map .str) ++
    optField "severity" (a.severity.map .str) ++ optField "cvss" (a.cvss.map .num) ++
    optField "summary" (a.summary.map .str))

/-- Serialize one scan record. -/
def encodeRecord (r : ScanRecord) : Json :=
  .obj [("package", .str r.package), ("currentVersion", .str r.currentVersion),
    ("dependencyType", .str r.dependencyType), ("publishedAt", .str r.publishedAt),
    ("isDefault", .bool r.isDefault),
    ("vulnerabilities", .arr (r.vulnerabilities.map encodeAdvisory)),
    ("vulnerabilityCount", .num (r.vulnerabilityCount : Rat))]

/-- Serialize the summary block. -/
def encodeSummary (s : ScanSummary) : Json :=
  .obj [("totalPackages", .num (s.totalPackages : Rat)),
    ("directDependencies", .num (s.directDependencies : Rat)),
    ("transitiveDependencies", .num (s.transitiveDependencies : Rat)),
    ("vulnerablePackages", .num (s.vulnerablePackages : Rat)),
    ("vulnerableDirect", .num (s.vulnerableDirect : Rat)),
    ("vulnerableTransitive", .num (s.vulnerableTransitive : Rat))]

/-- Serialize the whole report, with the field layout of `saveResults`. -/
def encodeReport (rep : ScanReport) : Json :=
  .obj [("scanDate", .str rep.scanDate), ("summary", encodeSummary rep.summary),
    ("results", .arr (rep.results.map encodeRecord))]

/-- Read back a JSON string. -/
def asStr : Json → Option String
  | .str s => some s
  | _ => none

/-- Read back a JSON boolean. -/
def asBool : Json → Option Bool
  | .bool b => some b
  | _ => none

/-- Read back a JSON number as an exact rational. -/
def asRat : Json → Option Rat
  | .num q => some q
  | _ => none

/-- Read back a JSON number as a natural number. -/
def asNat (j : Json) : Option Nat :=
  match j with
  | .num q => if q.den == 1 && decide (0 ≤ q.num) then some q.num.toNat else none
  | _ => none

/-- Re-read one advisory from the persisted document. -/
def decodeAdvisory : Json → Option Advisory
  | .obj fields =>
    some
      { id := (jGet fields "id").bind asStr
        title := (jGet fields "title").bind asStr
        severity := (jGet fields "severity").bind asStr
        cvss := (jGet fields "cvss").bind asRat
        summary := (jGet fields "summary").bind asStr }
  | _ => none

/-- Re-read one scan record from the persisted document. -/
def decodeRecord : Json → Option ScanRecord
  | .obj fields => do
    let p ← (jGet fields "package").bind asStr
    let c ← (jGet fields "currentVersion").bind asStr
    let d ← (jGet fields "dependencyType").bind asStr
    let pub ← (jGet fields "publishedAt").bind asStr
    let isDef ← (jGet fields "isDefault").bind asBool
    let vs ←
      match jGet fields "vulnerabilities" with
      | some (.arr xs) => xs.mapM decodeAdvisory
      | _ => none
    let n ← (jGet fields "vulnerabilityCount").bind asNat
    some
      { package := p, currentVersion := c, dependencyType := d, publishedAt := pub,
        isDefault := isDef, vulnerabilities := vs, vulnerabilityCount := n }
  | _ => none

/-- Re-read the summary block from the persisted document. -/
def decodeSummary : Json → Option ScanSummary
  | .obj fields => do
    let t ← (jGet fields "totalPackages").bind asNat
    let d ← (jGet fields "directDependencies").bind asNat
    let tr ← (jGet fields "transitiveDependencies").bind asNat
    let v ← (jGet fields "vulnerablePackages").bind asNat
    let vd ← (jGet fields "vulnerableDirect").bind asNat
    let vt ← (jGet fields "vulnerableTransitive").bind asNat
    some
      { totalPackages := t, directDependencies := d, transitiveDependencies := tr,
        vulnerablePackages := v, vulnerableDirect := vd, vulnerableTransitive := vt }
  | _ => none

/-- Re-read the whole report from the persisted document. -/
def decodeReport : Json → Option ScanReport
  | .obj fields => do
    let d ← (jGet fields "scanDate").bind asStr
    let s ← (jGet fields "summary").bind decodeSummary
    let rs ←
      match jGet fields "results" with
      | some (.arr xs) => xs.mapM decodeRecord
      | _ => none
    some { scanDate := d, summary := s, results := rs }
  | _ => none

/-- The value of the last entry of `es` carrying key `n`, if any: the
"last one encountered in table order". -/
def lastVal : List (String × String) → String → Option String
  | [], _ => none
  | e :: es, n =>
    match lastVal es n with
    | some v => some v
    | none => if e.1 = n then some e.2 else none

/-- The lock-table entries that survive the root/version filter of
`getAllInstalledPackages`, already normalized, in table order. -/
def normalizedEntries (l : PackageLock) : List (String × String) :=
  l.packages.filterMap
    (fun e =>
      if e.1 == "" then none
      else
        match e.2.version with
        | some v => if v == "" then none else some (normalizedName e.1, v)
        | none => none)

/-- The classification stored for one name, as a function of the merged
declared mapping. -/
def classifyName (pkg : PackageJson) (n : String) : String :=
  if truthyS (objGet (mergeObj pkg.dependencies pkg.devDependencies) n) then "direct"
  else "transitive"

/-- Spec-side reformulation of the version cleanup: the characters before
the first range marker, followed by everything after it. -/
def stripMarkerSpecList (l : List Char) : List Char :=
  l.takeWhile (fun c => ! isMarker c) ++ (l.dropWhile (fun c => ! isMarker c)).drop 1

/-- Manifest of the spec's two-package scenario: one direct dependency. -/
def scenarioPkg : PackageJson :=
  { dependencies := [("axios", "^1.12.2")], devDependencies := [] }

/-- Lock file of the spec's two-package scenario. -/
def scenarioLock : PackageLock :=
  { packages := [("node_modules/axios", { version := some "1.12.2" }),
                 ("node_modules/follow-redirects", { version := some "1.15.0" })] }

/-- Enrichment behaviour of the spec's two-package scenario: axios enriches
successfully with zero advisories, follow-redirects fails entirely. -/
def scenarioClient : EnrichClient :=
  { meta := fun packageName v =>
      if packageName == "axios" && v == "1.12.2" then
        some { publishedAt := some "2025-09-14T12:59:27Z", isDefault := some true }
      else none
    adv := fun packageName v =>
      if packageName == "axios" && v == "1.12.2" then .ok (some []) else .failed }

/-- A manifest declaring one dependency with an empty (falsy) range string. -/
def emptyRangePkg : PackageJson := { dependencies := [("a", "")], devDependencies := [] }

/-- A lock file installing that dependency. -/
def emptyRangeLock : PackageLock :=
  { packages := [("node_modules/a", { version := some "1.0.0" })] }

/-- A client whose every call fails. -/
def failingClient : EnrichClient := { meta := fun _ _ => none, adv := fun _ _ => .failed }

/-- A mixed manifest: one dependency with an empty (falsy) range string and
one with an ordinary range. -/
def mixedPkg : PackageJson :=
  { dependencies := [("a", ""), ("b", "^1.0.0")], devDependencies := [] }

/-- A lock file with two installation paths that normalize to the same
canonical name `"x"`. -/
def dupLock : PackageLock :=
  { packages := [("node_modules/a/node_modules/x", { version := some "1.0.0" }),
                 ("node_modules/b/node_modules/x", { version := some "2.0.0" })] }

/-- An empty manifest. -/
def emptyPkg : PackageJson := { dependencies := [], devDependencies := [] }

/-- The record the scan produces for follow-redirects in the two-package
scenario. -/
def frRecord : ScanRecord :=
  { package := "follow-redirects"
    currentVersion := "1.15.0"
    dependencyType := "transitive"
    publishedAt := "Unknown"
    isDefault := false
    vulnerabilities := []
    vulnerabilityCount := 0 }

/-- A concrete direct record with no vulnerabilities, for witnesses. -/
def sampleDirectRecord : ScanRecord :=
  { package := "a", currentVersion := "1.0.0", dependencyType := "direct",
    publishedAt := "Unknown", isDefault := false, vulnerabilities := [],
    vulnerabilityCount := 0 }

/-- A concrete transitive record with one vulnerability, for witnesses. -/
def sampleVulnRecord : ScanRecord :=
  { package := "b", currentVersion := "2.0.0", dependencyType := "transitive",
    publishedAt := "2020-01-01T00:00:00Z", isDefault := false,
    vulnerabilities := [{ id := some "GHSA-1", title := some "t", severity := none,
                          cvss := none, summary := none }],
    vulnerabilityCount := 1 }

/-! ### Basic facts about the JS-object model -/

theorem objGet_cons (e : String × String) (m : List (String × String)) (k : String) :
    objGet (e :: m) k = if e.1 = k then some e.2 else objGet m k := by
  by_cases h : e.1 = k
  · rw [objGet, List.find?_cons_of_pos _ (by simp [h]), if_pos h]
    rfl
  · rw [objGet, List.find?_cons_of_neg _ (by simp [h]), if_neg h]
    rfl

theorem any_key_iff (m : List (String × String)) (k : String) :
    (m.any (fun e => e.1 == k)) = true ↔ k ∈ m.map Prod.fst := by
  simp [List.any_eq_true, List.mem_map]

theorem objInsert_of_not_mem {m : List (String × String)} {k : String} (v : String)
    (h : k ∉ m.map Prod.fst) : objInsert m k v = m ++ [(k, v)] := by
  have hc : ¬ (m.any fun e => e.1 == k) = true := fun hc => h ((any_key_iff m k).mp hc)
  rw [objInsert, if_neg hc]

theorem objInsert_of_mem {m : List (String × String)} {k : String} (v : String)
    (h : k ∈ m.map Prod.fst) :
    objInsert m k v = m.map (fun e => if e.1 == k then (k, v) else e) := by
  rw [objInsert, if_pos ((any_key_iff m k).mpr h)]

theorem objInsert_map_fst_of_mem {m : List (String × String)} {k : String} (v : String)
    (h : k ∈ m.map Prod.fst) : (objInsert m k v).map Prod.fst = m.map Prod.fst := by
  rw [objInsert_of_mem v h, List.map_map]
  apply List.map_congr_left
  intro e _
  by_cases hek : e.1 = k
  · simp [hek]
  · simp [hek]

theorem objInsert_map_fst_of_not_mem {m : List (String × String)} {k : String} (v : String)
    (h : k ∉ m.map Prod.fst) :
    (objInsert m k v).map Prod.fst = m.map Prod.fst ++ [k] := by
  rw [objInsert_of_not_mem v h]
  simp

theorem objInsert_nodup {m : List (String × String)} {k : String} (v : String)
    (h : (m.map Prod.fst).Nodup) : ((objInsert m k v).map Prod.fst).Nodup := by
  by_cases hk : k ∈ m.map Prod.fst
  · rw [objInsert_map_fst_of_mem v hk]
    exact h
  · rw [objInsert_map_fst_of_not_mem v hk]
    simp [List.nodup_append, h, hk]

theorem objInsertAll_nodup (xs : List (String × String)) :
    ∀ {acc : List (String × String)}, (acc.map Prod.fst).Nodup →
      ((objInsertAll acc xs).map Prod.fst).Nodup := by
  induction xs with
  | nil => intro acc h; simpa [objInsertAll] using h
  | cons e xs ih =>
    intro acc h
    rw [objInsertAll, List.foldl_cons]
    exact ih (objInsert_nodup e.2 h)

theorem objInsertAll_eq_append (xs : List (String × String)) :
    ∀ {acc : List (String × String)}, (xs.map Prod.fst).Nodup →
      (∀ k ∈ xs.map Prod.fst, k ∉ acc.map Prod.fst) →
      objInsertAll acc xs = acc ++ xs := by
  induction xs with
  | nil => intro acc _ _; simp [objInsertAll]
  | cons e xs ih =>
    intro acc hnd hdisj
    rw [objInsertAll, List.foldl_cons]
    have he : e.1 ∉ acc.map Prod.fst := hdisj e.1 (by simp)
    have hstep : objInsert acc e.1 e.2 = acc ++ [e] := by
      rw [objInsert_of_not_mem e.2 he]
    rw [hstep]
    have hnd' := hnd
    rw [List.map_cons, List.nodup_cons] at hnd'
    have hdisj' : ∀ k ∈ xs.map Prod.fst, k ∉ (acc ++ [e]).map Prod.fst := by
      intro k hk
      simp only [List.map_append, List.mem_append, List.map_cons, List.map_nil,
        List.mem_singleton]
      rintro (hka | hke)
      · exact hdisj k (by simp [hk]) hka
      · exact hnd'.1 (hke ▸ hk)
    calc objInsertAll (acc ++ [e]) xs = (acc ++ [e]) ++ xs := ih hnd'.2 hdisj'
      _ = acc ++ e :: xs := by simp

theorem objInsertAll_nil_eq (xs : List (String × String))
    (h : (xs.map Prod.fst).Nodup) : objInsertAll [] xs = xs := by
  have := @objInsertAll_eq_append xs [] h (by simp)
  simpa using this

theorem objGet_map_replace_self (m : List (String × String)) (k v : String)
    (h : k ∈ m.map Prod.fst) :
    objGet (m.map (fun e => if e.1 == k then (k, v) else e)) k = some v := by
  induction m with
  | nil => simp at h
  | cons e m ih =>
    by_cases hek : e.1 = k
    · simp [List.map_cons, hek, objGet_cons]
    · have h' : k ∈ m.map Prod.fst := by
        rcases List.mem_map.mp h with ⟨a, ha, hak⟩
        rcases List.mem_cons.mp ha with rfl | ham
        · exact absurd hak hek
        · exact List.mem_map.mpr ⟨a, ham, hak⟩
      simpa [List.map_cons, hek, objGet_cons] using ih h'

theorem objGet_map_replace_ne (m : List (String × String)) (k v k' : String)
    (h : k' ≠ k) :
    objGet (m.map (fun e => if e.1 == k then (k, v) else e)) k' = objGet m k' := by
  induction m with
  | nil => rfl
  | cons e m ih =>
    rw [List.map_cons, objGet_cons, objGet_cons]
    by_cases hek : e.1 = k
    · have h1 : (if e.1 == k then (k, v) else e) = (k, v) := by simp [hek]
      rw [h1]
      have h2 : ¬ ((k, v).1 = k') := fun hc => h (by simpa using hc.symm)
      have h3 : ¬ (e.1 = k') := by rw [hek]; exact fun hc => h hc.symm
      rw [if_neg h2, if_neg h3]
      exact ih
    · have h1 : (if e.1 == k then (k, v) else e) = e := by simp [hek]
      rw [h1]
      by_cases he' : e.1 = k'
      · rw [if_pos he', if_pos he']
      · rw [if_neg he', if_neg he']
        exact ih

theorem objGet_append_single_self (m : List (String × String)) (k v : String)
    (h : k ∉ m.map Prod.fst) : objGet (m ++ [(k, v)]) k = some v := by
  induction m with
  | nil => simp [objGet_cons]
  | cons e m ih =>
    have hek : ¬ e.1 = k := by
      intro hc
      exact h (by simp [hc])
    rw [List.cons_append, objGet_cons, if_neg hek]
    exact ih (fun hc => h (by simp [hc]))

theorem objGet_append_single_ne (m : List (String × String)) (k v k' : String)
    (h : k' ≠ k) : objGet (m ++ [(k, v)]) k' = objGet m k' := by
  induction m with
  | nil =>
    have hkk' : ¬ ((k, v).1 = k') := fun hc => h (by simpa using hc.symm)
    rw [List.nil_append, objGet_cons, if_neg hkk']
  | cons e m ih =>
    rw [List.cons_append, objGet_cons, objGet_cons]
    by_cases he' : e.1 = k'
    · simp [he']
    · simpa [he'] using ih

theorem objGet_objInsert (m : List (String × String)) (k v k' : String) :
    objGet (objInsert m k v) k' = if k' = k then some v else objGet m k' := by
  by_cases hmem : k ∈ m.map Prod.fst
  · rw [objInsert_of_mem v hmem]
    by_cases hk' : k' = k
    · subst hk'
      rw [if_pos rfl]
      exact objGet_map_replace_self m k' v hmem
    · rw [if_neg hk']
      exact objGet_map_replace_ne m k v k' hk'
  · rw [objInsert_of_not_mem v hmem]
    by_cases hk' : k' = k
    · subst hk'
      rw [if_pos rfl]
      exact objGet_append_single_self m k' v hmem
    · rw [if_neg hk']
      exact objGet_append_single_ne m k v k' hk'

theorem objGet_objInsertAll (es : List (String × String)) :
    ∀ (acc : List (String × String)) (n : String),
      objGet (objInsertAll acc es) n =
        match lastVal es n with
        | some v => some v
        | none => objGet acc n := by
  induction es with
  | nil => intro acc n; simp [objInsertAll, lastVal]
  | cons e es ih =>
    intro acc n
    rw [objInsertAll, List.foldl_cons]
    have hstep := ih (objInsert acc e.1 e.2) n
    rw [objInsertAll] at hstep
    rw [hstep, lastVal]
    cases hlv : lastVal es n with
    | some v => simp
    | none =>
      simp only []
      rw [objGet_objInsert]
      by_cases hen : e.1 = n
      · rw [if_pos hen, if_pos hen.symm]
      · rw [if_neg hen, if_neg (fun hc => hen hc.symm)]

theorem objGet_of_mem_nodup {m : List (String × String)} {k v : String}
    (hnd : (m.map Prod.fst).Nodup) (h : (k, v) ∈ m) : objGet m k = some v := by
  induction m with
  | nil => simp at h
  | cons e m ih =>
    have hnd' := hnd
    rw [List.map_cons, List.nodup_cons] at hnd'
    rcases List.mem_cons.mp h with he | hm
    · rw [← he, objGet_cons, if_pos rfl]
    · have hk : k ∈ m.map Prod.fst := List.mem_map.mpr ⟨(k, v), hm, rfl⟩
      have hek : ¬ e.1 = k := fun hc => hnd'.1 (hc ▸ hk)
      rw [objGet_cons, if_neg hek]
      exact ih hnd'.2 hm

theorem objGet_eq_none {m : List (String × String)} {k : String}
    (h : k ∉ m.map Prod.fst) : objGet m k = none := by
  rw [objGet, Option.map_eq_none', List.find?_eq_none]
  intro e he hc
  exact h (List.mem_map.mpr ⟨e, he, by simpa using hc⟩)

theorem objGet_isSome_iff (m : List (String × String)) (k : String) :
    (objGet m k).isSome = true ↔ k ∈ m.map Prod.fst := by
  induction m with
  | nil => simp [objGet]
  | cons e m ih =>
    rw [objGet_cons]
    by_cases h : e.1 = k
    · simp [h]
    · simp only [if_neg h, ih, List.map_cons, List.mem_cons]
      constructor
      · intro hm; exact Or.inr hm
      · rintro (hk | hm)
        · exact absurd hk.symm h
        · exact hm

theorem filter_key_length_one {m : List (String × String)} {k : String}
    (hnd : (m.map Prod.fst).Nodup) (h : k ∈ m.map Prod.fst) :
    (m.filter (fun e => e.1 == k)).length = 1 := by
  induction m with
  | nil => simp at h
  | cons e m ih =>
    have hnd0 := hnd
    rw [List.map_cons, List.nodup_cons] at hnd0
    by_cases hek : e.1 = k
    · have hkm : k ∉ m.map Prod.fst := hek ▸ hnd0.1
      have hnil : m.filter (fun e => e.1 == k) = [] := by
        rw [List.filter_eq_nil_iff]
        intro a ha hc
        exact hkm (List.mem_map.mpr ⟨a, ha, by simpa using hc⟩)
      simp [List.filter_cons, hek, hnil]
    · rw [List.filter_cons]
      have hbe : (e.1 == k) = false := by simp [hek]
      simp only [hbe, Bool.false_eq_true, if_false]
      apply ih hnd0.2
      rcases List.mem_map.mp h with ⟨a, ha, hak⟩
      rcases List.mem_cons.mp ha with rfl | ham
      · exact absurd hak hek
      · exact List.mem_map.mpr ⟨a, ham, hak⟩

/-! ### Structural facts about the scanner pipeline -/

theorem indexLock_eq_insertAll (l : PackageLock) :
    indexLock l = objInsertAll [] (normalizedEntries l) := by
  rw [indexLock, normalizedEntries]
  generalize l.packages = ps
  suffices h : ∀ acc, ps.foldl
      (fun acc e =>
        if e.1 == "" then acc
        else
          match e.2.version with
          | some v => if v == "" then acc else objInsert acc (normalizedName e.1) v
          | none => acc) acc =
      objInsertAll acc (ps.filterMap
        (fun e =>
          if e.1 == "" then none
          else
            match e.2.version with
            | some v => if v == "" then none else some (normalizedName e.1, v)
            | none => none)) from h []
  induction ps with
  | nil => intro acc; simp [objInsertAll]
  | cons p ps ih =>
    intro acc
    rw [List.foldl_cons, List.filterMap_cons]
    by_cases h1 : (p.1 == "") = true
    · simp only [h1, if_true]
      exact ih acc
    · have h1' : (p.1 == "") = false := by simpa using h1
      simp only [h1', Bool.false_eq_true, if_false]
      cases hv : p.2.version with
      | none => exact ih acc
      | some v =>
        by_cases h2 : (v == "") = true
        · simp only [h2, if_true]
          exact ih acc
        · have h2' : (v == "") = false := by simpa using h2
          simp only [h2', Bool.false_eq_true, if_false]
          rw [objInsertAll, List.foldl_cons, ← objInsertAll]
          exact ih _

theorem mergeObj_nodup (a b : List (String × String)) :
    ((mergeObj a b).map Prod.fst).Nodup :=
  objInsertAll_nodup b (objInsertAll_nodup a (by simp))

theorem getAll_nodup (lock : Option PackageLock) (pkg : PackageJson) :
    ((getAllInstalledPackages lock pkg).map Prod.fst).Nodup := by
  cases lock with
  | some l =>
    rw [getAllInstalledPackages, indexLock_eq_insertAll]
    exact objInsertAll_nodup _ (by simp)
  | none =>
    rw [getAllInstalledPackages, getDependencies]
    exact mergeObj_nodup _ _

theorem foldl_objInsert_map (g : String → String) (xs : List (String × String)) :
    ∀ acc, xs.foldl (fun acc e => objInsert acc e.1 (g e.1)) acc =
      objInsertAll acc (xs.map (fun e => (e.1, g e.1))) := by
  induction xs with
  | nil => intro acc; simp [objInsertAll]
  | cons e xs ih =>
    intro acc
    rw [List.foldl_cons, List.map_cons, objInsertAll, List.foldl_cons, ← objInsertAll]
    exact ih _

theorem objGet_map_classify (g : String → String) (xs : List (String × String))
    (n : String) :
    objGet (xs.map (fun e => (e.1, g e.1))) n = (objGet xs n).map (fun _ => g n) := by
  induction xs with
  | nil => rfl
  | cons e xs ih =>
    rw [List.map_cons, objGet_cons, objGet_cons]
    by_cases h : e.1 = n
    · subst h
      rw [if_pos rfl, if_pos rfl]
      rfl
    · rw [if_neg h, if_neg h]
      exact ih

theorem getDependencyTypes_eq_map (pkg : PackageJson) (lock : Option PackageLock) :
    getDependencyTypes pkg lock =
      (getAllInstalledPackages lock pkg).map (fun e => (e.1, classifyName pkg e.1)) := by
  rw [getDependencyTypes]
  have h1 := foldl_objInsert_map (classifyName pkg) (getAllInstalledPackages lock pkg) []
  simp only [classifyName] at h1
  rw [h1]
  apply objInsertAll_nil_eq
  have : ((getAllInstalledPackages lock pkg).map
      (fun e => (e.1, classifyName pkg e.1))).map Prod.fst =
      (getAllInstalledPackages lock pkg).map Prod.fst := by
    rw [List.map_map]
    rfl
  simp only [classifyName] at this
  rw [this]
  exact getAll_nodup lock pkg

theorem scanLoop_eq_map (client : EnrichClient) (types : List (String × String))
    (deps : List (String × String)) :
    scanLoop client types deps = deps.map (recordFor client types) := by
  rw [scanLoop]
  suffices h : ∀ acc, deps.foldl (fun results e => results ++ [recordFor client types e]) acc =
      acc ++ deps.map (recordFor client types) by
    simpa using h []
  induction deps with
  | nil => intro acc; simp
  | cons e deps ih =>
    intro acc
    rw [List.foldl_cons, ih, List.map_cons]
    simp

/-! ### Claim C1 -/

/-- C1 (amended): `getDependencyTypes` produces exactly one classification per
installed package, in the iteration order of the installed-package mapping,
and a package is classified "direct" iff the merged declared-dependency
mapping holds a truthy (non-empty) version string under its normalized name;
otherwise it is classified "transitive". -/
theorem getDependencyTypes_classification (pkg : PackageJson) (lock : Option PackageLock) :
    (getDependencyTypes pkg lock).map Prod.fst =
      (getAllInstalledPackages lock pkg).map Prod.fst
    ∧ ((getDependencyTypes pkg lock).map Prod.fst).Nodup
    ∧ ∀ p ∈ getDependencyTypes pkg lock,
        (p.2 = "direct" ↔
          truthyS (objGet (mergeObj pkg.dependencies pkg.devDependencies) p.1) = true)
        ∧ (p.2 = "transitive" ↔
          truthyS (objGet (mergeObj pkg.dependencies pkg.devDependencies) p.1) = false) := by
  refine ⟨?_, ?_, ?_⟩
  · rw [getDependencyTypes_eq_map, List.map_map]
    rfl
  · rw [getDependencyTypes_eq_map, List.map_map]
    have hfst : (Prod.fst ∘ fun e : String × String => (e.1, classifyName pkg e.1)) =
        (Prod.fst : String × String → String) := rfl
    rw [hfst]
    exact getAll_nodup lock pkg
  · intro p hp
    rw [getDependencyTypes_eq_map] at hp
    rcases List.mem_map.mp hp with ⟨e, _, hep⟩
    subst hep
    simp only [classifyName]
    by_cases ht : truthyS (objGet (mergeObj pkg.dependencies pkg.devDependencies) e.1) = true
    · rw [if_pos ht]
      exact ⟨⟨fun _ => ht, fun _ => rfl⟩, iff_of_false (by decide) (by simp [ht])⟩
    · have ht' : truthyS (objGet (mergeObj pkg.dependencies pkg.devDependencies) e.1) = false := by
        simpa using ht
      rw [if_neg ht]
      exact ⟨iff_of_false (by decide) (by simp [ht']), ⟨fun _ => ht', fun _ => rfl⟩⟩

/-- C1 witness: the theorem applied to the two-package scenario, at the
installed package "axios". -/
theorem getDependencyTypes_classification_witness :
    (("axios", "direct") ∈ getDependencyTypes scenarioPkg (some scenarioLock))
    ∧ ((("axios", "direct") : String × String).2 = "direct" ↔
        truthyS (objGet (mergeObj scenarioPkg.dependencies scenarioPkg.devDependencies)
          (("axios", "direct") : String × String).1) = true) :=
  ⟨by decide,
   ((getDependencyTypes_classification scenarioPkg (some scenarioLock)).2.2 _ (by decide)).1⟩

/-- C1 counterexample: with the declared mapping `\x7ba: ""\x7d`, the name "a"
is a key of the merged declared mapping, yet the installed package "a" is
classified "transitive" — the stored value does matter. -/
theorem getDependencyTypes_empty_range_cx :
    objGet (getDependencyTypes emptyRangePkg (some emptyRangeLock)) "a" = some "transitive"
    ∧ "a" ∈ (mergeObj emptyRangePkg.dependencies emptyRangePkg.devDependencies).map Prod.fst := by
  constructor
  · decide
  · decide

/-! ### Claim C2 -/

/-- C2 (amended): the scan loop produces exactly one record per input
package, in input order; a failed metadata query degrades `publishedAt` to
the sentinel "Unknown", and a failed advisory query degrades the
vulnerabilities to the empty list with count 0, independently of each other
and of the remaining packages.  In the two-package scenario (axios enriches,
follow-redirects fails entirely) the report has totalPackages 2 and
vulnerablePackages 0, and follow-redirects' record has publishedAt "Unknown"
and vulnerabilityCount 0. -/
theorem scanLoop_per_package (client : EnrichClient) (types deps : List (String × String)) :
    (scanLoop client types deps).length = deps.length
    ∧ (∀ (i : Nat) (p : String × String), deps[i]? = some p →
        ∃ r : ScanRecord, (scanLoop client types deps)[i]? = some r
          ∧ r.package = p.1 ∧ r.currentVersion = p.2
          ∧ (client.meta p.1 (cleanVersion p.2) = none → r.publishedAt = "Unknown")
          ∧ (client.adv p.1 (cleanVersion p.2) = .failed →
              r.vulnerabilities = [] ∧ r.vulnerabilityCount = 0))
    ∧ (buildReport "2025-01-01T00:00:00Z"
        (scanDependencies scenarioClient scenarioPkg (some scenarioLock) true)).summary.totalPackages = 2
    ∧ (buildReport "2025-01-01T00:00:00Z"
        (scanDependencies scenarioClient scenarioPkg (some scenarioLock) true)).summary.vulnerablePackages = 0
    ∧ (∃ r : ScanRecord,
        (scanDependencies scenarioClient scenarioPkg (some scenarioLock) true)[1]? = some r
        ∧ r.package = "follow-redirects" ∧ r.publishedAt = "Unknown"
        ∧ r.vulnerabilityCount = 0) := by
  refine ⟨?_, ?_, by decide, by decide, ?_⟩
  · rw [scanLoop_eq_map, List.length_map]
  · intro i p hp
    refine ⟨recordFor client types p, ?_, rfl, rfl, ?_, ?_⟩
    · rw [scanLoop_eq_map, List.getElem?_map, hp, Option.map_some']
    · intro hfail
      simp only [recordFor, getVersionInfo, hfail]
    · intro hfail
      simp [recordFor, getVulnerabilities, hfail, advisoriesOf]
  · exact ⟨frRecord, by decide, rfl, rfl, rfl⟩

/-- C2 witness: the theorem applied to the scenario client, classification
and package list, at index 1 (follow-redirects, whose enrichment fails). -/
theorem scanLoop_per_package_witness :
    ∃ r : ScanRecord, (scanLoop scenarioClient
        (getDependencyTypes scenarioPkg (some scenarioLock))
        [("axios", "^1.12.2"), ("follow-redirects", "1.15.0")])[1]? = some r
      ∧ r.package = "follow-redirects" ∧ r.currentVersion = "1.15.0"
      ∧ (scenarioClient.meta "follow-redirects" (cleanVersion "1.15.0") = none →
          r.publishedAt = "Unknown")
      ∧ (scenarioClient.adv "follow-redirects" (cleanVersion "1.15.0") = .failed →
          r.vulnerabilities = [] ∧ r.vulnerabilityCount = 0) :=
  (scanLoop_per_package scenarioClient
      (getDependencyTypes scenarioPkg (some scenarioLock))
      [("axios", "^1.12.2"), ("follow-redirects", "1.15.0")]).2.1 1
    ("follow-redirects", "1.15.0") (by decide)

/-- C2 counterexample: the degraded publication date is the capitalized
sentinel "Unknown", not the claim's literal "unknown". -/
theorem scan_publishedAt_sentinel_cx :
    ((scanDependencies scenarioClient scenarioPkg (some scenarioLock) true).map
        (fun r => r.publishedAt)) = ["2025-09-14T12:59:27Z", "Unknown"]
    ∧ ("Unknown" : String) ≠ "unknown" := by
  constructor
  · decide
  · decide

/-! ### Claim C3 -/

/-- C3 (amended): for EVERY readable manifest, when the lock file is
unreadable the scan still completes and the scanned set falls back to the
manifest's merged direct-dependency mapping; per record, a dependency whose
declared version-range string (its `currentVersion` in degraded mode) is
non-empty is classified "direct", and one declared with an empty (falsy)
range string is classified "transitive". -/
theorem scan_degraded_direct (client : EnrichClient) (pkg : PackageJson) :
    (scanDependencies client pkg none true).map (fun r => (r.package, r.currentVersion)) =
      getDependencies pkg
    ∧ ∀ r ∈ scanDependencies client pkg none true,
        (r.currentVersion ≠ "" → r.dependencyType = "direct")
        ∧ (r.currentVersion = "" → r.dependencyType = "transitive") := by
  have hscan : scanDependencies client pkg none true =
      scanLoop client (getDependencyTypes pkg none) (getDependencies pkg) := rfl
  constructor
  · rw [hscan, scanLoop_eq_map, List.map_map]
    have : ((fun r : ScanRecord => (r.package, r.currentVersion)) ∘
        recordFor client (getDependencyTypes pkg none)) = fun e : String × String => e := by
      funext e
      rfl
    rw [this, List.map_id']
  · intro r hr
    rw [hscan, scanLoop_eq_map] at hr
    rcases List.mem_map.mp hr with ⟨e, he, her⟩
    subst her
    have hget : objGet (getDependencies pkg) e.1 = some e.2 :=
      objGet_of_mem_nodup (mergeObj_nodup pkg.dependencies pkg.devDependencies) (by
        rcases e with ⟨n, v⟩
        exact he)
    have hg : objGet (mergeObj pkg.dependencies pkg.devDependencies) e.1 = some e.2 := hget
    have htypes : objGet (getDependencyTypes pkg none) e.1 = some (classifyName pkg e.1) := by
      rw [getDependencyTypes_eq_map, objGet_map_classify]
      have hall : getAllInstalledPackages none pkg = getDependencies pkg := rfl
      rw [hall, hget, Option.map_some']
    constructor
    · intro hne
      have hne' : e.2 ≠ "" := hne
      have hclass : classifyName pkg e.1 = "direct" := by
        rw [classifyName]
        have htruth : truthyS (objGet (mergeObj pkg.dependencies pkg.devDependencies) e.1) = true := by
          rw [hg]
          show (e.2 != "") = true
          simpa using hne'
        rw [if_pos htruth]
      show (match objGet (getDependencyTypes pkg none) e.1 with
        | some t => if t == "" then "direct" else t
        | none => "direct") = "direct"
      rw [htypes, hclass]
      decide
    · intro heq
      have heq' : e.2 = "" := heq
      have hclass : classifyName pkg e.1 = "transitive" := by
        rw [classifyName]
        have htruth : truthyS (objGet (mergeObj pkg.dependencies pkg.devDependencies) e.1) = false := by
          rw [hg]
          show (e.2 != "") = false
          simp [heq']
        rw [if_neg (by simp [htruth])]
      show (match objGet (getDependencyTypes pkg none) e.1 with
        | some t => if t == "" then "direct" else t
        | none => "direct") = "transitive"
      rw [htypes, hclass]
      decide

/-- C3 witness: the theorem applied to the mixed manifest
`\x7ba: "", b: "^1.0.0"\x7d` with an unreadable lock file — the scan falls
back to the manifest, "b" (non-empty range) is direct and "a" (empty range)
is transitive. -/
theorem scan_degraded_direct_witness :
    ((scanDependencies failingClient mixedPkg none true).map
        (fun r => (r.package, r.currentVersion)) = getDependencies mixedPkg)
    ∧ (recordFor failingClient (getDependencyTypes mixedPkg none)
        ("b", "^1.0.0")).dependencyType = "direct"
    ∧ (recordFor failingClient (getDependencyTypes mixedPkg none)
        ("a", "")).dependencyType = "transitive" :=
  ⟨(scan_degraded_direct failingClient mixedPkg).1,
   ((scan_degraded_direct failingClient mixedPkg).2 _ (by decide)).1 (by decide),
   ((scan_degraded_direct failingClient mixedPkg).2 _ (by decide)).2 (by decide)⟩

/-- C3 counterexample: manifest `\x7ba: ""\x7d` with an unreadable lock file —
the scan completes, but the single record is classified "transitive", not
"direct". -/
theorem scan_degraded_transitive_cx :
    (scanDependencies failingClient emptyRangePkg none true).map
        (fun r => r.dependencyType) = ["transitive"]
    ∧ ("transitive" : String) ≠ "direct" := by
  constructor
  · decide
  · decide

/-! ### Claim C4 -/

theorem stripFirstNM_append (l : List Char) : stripFirstNM (nmDir ++ l) = l := by
  have hpre : nmDir.isPrefixOf ('n' :: ("ode_modules/".data ++ l)) = true :=
    List.isPrefixOf_iff_prefix.mpr (List.prefix_append nmDir l)
  show stripFirstNM ('n' :: ("ode_modules/".data ++ l)) = l
  rw [stripFirstNM]
  rw [if_pos hpre]
  exact List.drop_left nmDir l

theorem takeWhile_append_all {p : Char → Bool} (a b : List Char)
    (h : ∀ c ∈ a, p c = true) :
    (a ++ b).takeWhile p = a ++ b.takeWhile p := by
  induction a with
  | nil => simp
  | cons c a ih =>
    rw [List.cons_append, List.takeWhile_cons, h c (by simp), if_pos rfl,
      ih (fun c hc => h c (by simp [hc])), List.cons_append]

theorem afterLastSlash_append (x name : List Char) (h : name.contains '/' = false) :
    afterLastSlash (x ++ '/' :: name) = name := by
  have hmem : ('/' : Char) ∉ name := by simpa using h
  have hall : ∀ c ∈ name.reverse, (c != '/') = true := by
    intro c hc
    have hcn : c ∈ name := List.mem_reverse.mp hc
    have : c ≠ '/' := fun hc' => hmem (hc' ▸ hcn)
    simpa using this
  rw [afterLastSlash, List.reverse_append, List.reverse_cons, List.append_assoc,
    takeWhile_append_all _ _ hall]
  have hslash : (('/' : Char) != '/') = false := by decide
  rw [List.singleton_append, List.takeWhile_cons, hslash]
  simp

/-- C4 (amended): the normalizer strips the first occurrence of the
installation-directory marker; when the remainder contains a separator and
does not begin with "@", only the final path segment is kept; a scoped
package installed at the TOP LEVEL keeps its namespace whole, but a scoped
package nested under another package's path collapses to its bare final
segment — the namespace prefix is lost. -/
theorem normalizedName_scoped_cases :
    (∀ rest : List Char, rest.head? = some '@' → normalizeChars (nmDir ++ rest) = rest)
    ∧ (∀ x name : List Char, (x ++ '/' :: name).head? ≠ some '@' →
        name.contains '/' = false →
        normalizeChars (nmDir ++ (x ++ '/' :: name)) = name)
    ∧ (∀ mid ns name : List Char, mid.head? ≠ some '@' → name.contains '/' = false →
        normalizeChars (nmDir ++ (mid ++ (nmDir ++ ('@' :: ns ++ '/' :: name)))) = name) := by
  have hgen : ∀ x name : List Char, (x ++ '/' :: name).head? ≠ some '@' →
      name.contains '/' = false →
      normalizeChars (nmDir ++ (x ++ '/' :: name)) = name := by
    intro x name hhead hname
    rw [normalizeChars, stripFirstNM_append]
    have hc : (x ++ '/' :: name).contains '/' = true := by
      simp
    have hh : ((x ++ '/' :: name).head? == some '@') = false := by
      simpa using hhead
    rw [hc, hh]
    show afterLastSlash (x ++ '/' :: name) = name
    exact afterLastSlash_append x name hname
  refine ⟨?_, hgen, ?_⟩
  · intro rest hhead
    rw [normalizeChars, stripFirstNM_append]
    have hh : (rest.head? == some '@') = true := by simp [hhead]
    rw [hh]
    simp
  · intro mid ns name hmid hname
    have hassoc : mid ++ (nmDir ++ ('@' :: ns ++ '/' :: name)) =
        (mid ++ nmDir ++ '@' :: ns) ++ '/' :: name := by
      simp [List.append_assoc]
    rw [hassoc]
    apply hgen _ name _ hname
    cases mid with
    | nil =>
      intro hc
      rw [List.nil_append] at hc
      have hn : ((nmDir ++ '@' :: ns) ++ '/' :: name).head? = some 'n' := rfl
      rw [hn] at hc
      exact absurd (Option.some.inj hc) (by decide)
    | cons c cs =>
      intro hc
      apply hmid
      simpa using hc

/-- C4 witness: the theorem applied to a top-level scoped install, which
keeps its namespace, and to the nested scoped install
`node_modules/foo/node_modules/@scope/bar`, which collapses to "bar". -/
theorem normalizedName_scoped_cases_witness :
    normalizeChars (nmDir ++ "@scope/bar".data) = "@scope/bar".data
    ∧ normalizeChars (nmDir ++ ("foo/".data ++ (nmDir ++ ('@' :: "scope".data ++ '/' :: "bar".data)))) =
      "bar".data :=
  ⟨normalizedName_scoped_cases.1 "@scope/bar".data (by decide),
   normalizedName_scoped_cases.2.2 "foo/".data "scope".data "bar".data (by decide) (by decide)⟩

/-- C4 counterexample: a scoped package installed nested under another
package's path does NOT retain its namespace prefix — the canonical name is
the bare "bar". -/
theorem normalizedName_nested_scoped_cx :
    normalizedName "node_modules/foo/node_modules/@scope/bar" = "bar"
    ∧ (normalizedName "node_modules/foo/node_modules/@scope/bar").data.head? ≠ some '@' := by
  constructor
  · decide
  · decide

/-! ### Claim C5 -/

theorem lastVal_eq_none_iff (es : List (String × String)) (n : String) :
    lastVal es n = none ↔ ∀ e ∈ es, ¬ e.1 = n := by
  induction es with
  | nil => simp [lastVal]
  | cons e es ih =>
    rw [lastVal]
    cases hlv : lastVal es n with
    | some v =>
      simp only []
      constructor
      · intro hc
        exact absurd hc (by simp)
      · intro hall
        have hnone : lastVal es n = none := ih.mpr (fun e' he' => hall e' (by simp [he']))
        rw [hnone] at hlv
        exact absurd hlv (by simp)
    | none =>
      simp only []
      by_cases hen : e.1 = n
      · rw [if_pos hen]
        constructor
        · intro hc
          exact absurd hc (by simp)
        · intro hall
          exact absurd hen (hall e (by simp))
      · rw [if_neg hen]
        constructor
        · intro _ e' he'
          rcases List.mem_cons.mp he' with rfl | hm
          · exact hen
          · exact (ih.mp hlv) e' hm
        · intro _
          rfl

/-- C5 (confirmed): when two or more installation paths normalize to the same
canonical name, the indexed mapping retains exactly one entry for that name,
holding the version of the last such (surviving) entry in table order, and no
error is raised (the indexer is total). -/
theorem getAllInstalled_lastWins (l : PackageLock) (pkg : PackageJson) (n : String)
    (h : 2 ≤ ((normalizedEntries l).filter (fun e => e.1 == n)).length) :
    objGet (getAllInstalledPackages (some l) pkg) n = lastVal (normalizedEntries l) n
    ∧ ((getAllInstalledPackages (some l) pkg).filter (fun e => e.1 == n)).length = 1 := by
  have hsome : lastVal (normalizedEntries l) n ≠ none := by
    intro hc
    have hall := (lastVal_eq_none_iff (normalizedEntries l) n).mp hc
    have hnil : (normalizedEntries l).filter (fun e => e.1 == n) = [] := by
      rw [List.filter_eq_nil_iff]
      intro e he hc'
      exact hall e he (by simpa using hc')
    rw [hnil] at h
    simp at h
  have hidx : getAllInstalledPackages (some l) pkg = objInsertAll [] (normalizedEntries l) := by
    show indexLock l = objInsertAll [] (normalizedEntries l)
    exact indexLock_eq_insertAll l
  have hget : objGet (getAllInstalledPackages (some l) pkg) n =
      lastVal (normalizedEntries l) n := by
    rw [hidx, objGet_objInsertAll]
    cases hlv : lastVal (normalizedEntries l) n with
    | some v => rfl
    | none => exact absurd hlv hsome
  refine ⟨hget, ?_⟩
  apply filter_key_length_one (getAll_nodup (some l) pkg)
  rw [← objGet_isSome_iff, hget]
  cases hlv : lastVal (normalizedEntries l) n with
  | some v => rfl
  | none => exact absurd hlv hsome

/-- C5 witness: the theorem applied to a lock file whose two nested
installation paths both normalize to "x"; the retained version is the later
"2.0.0". -/
theorem getAllInstalled_lastWins_witness :
    (2 ≤ ((normalizedEntries dupLock).filter (fun e => e.1 == "x")).length)
    ∧ objGet (getAllInstalledPackages (some dupLock) emptyPkg) "x" =
        lastVal (normalizedEntries dupLock) "x"
    ∧ ((getAllInstalledPackages (some dupLock) emptyPkg).filter
        (fun e => e.1 == "x")).length = 1 :=
  ⟨by decide,
   (getAllInstalled_lastWins dupLock emptyPkg "x" (by decide)).1,
   (getAllInstalled_lastWins dupLock emptyPkg "x" (by decide)).2⟩

/-! ### Claim C6 -/

theorem stripMarker_eq_spec (l : List Char) : stripMarker l = stripMarkerSpecList l := by
  induction l with
  | nil => rfl
  | cons c cs ih =>
    by_cases hm : isMarker c = true
    · simp [stripMarker, stripMarkerSpecList, hm]
    · have hm' : isMarker c = false := by simpa using hm
      simp only [stripMarker, stripMarkerSpecList, hm', Bool.false_eq_true, if_false,
        List.takeWhile_cons, List.dropWhile_cons, Bool.not_false, if_pos, List.cons_append]
      rw [ih, stripMarkerSpecList]

/-- C6 (amended): the version string sent to both enrichment queries is the
installed version with the FIRST caret or tilde occurrence — anywhere in the
string, not only leading — removed; at most one character is deleted, and a
version with no marker is sent unchanged. -/
theorem cleanVersion_first_marker (client : EnrichClient) (packageName v : String) :
    getVersionInfo client packageName v =
      client.meta packageName (String.mk (stripMarkerSpecList v.data))
    ∧ getVulnerabilities client packageName v =
      advisoriesOf (client.adv packageName (String.mk (stripMarkerSpecList v.data))) := by
  constructor
  · rw [getVersionInfo, cleanVersion, stripMarker_eq_spec]
  · rw [getVulnerabilities, cleanVersion, stripMarker_eq_spec]

/-- C6 counterexample: a version with no leading marker but a tilde in the
middle is NOT sent unchanged — the tilde is deleted; and of two leading
markers only the first is removed. -/
theorem cleanVersion_not_leading_cx :
    cleanVersion "1.2.3~beta" = "1.2.3beta"
    ∧ cleanVersion "1.2.3~beta" ≠ "1.2.3~beta"
    ∧ cleanVersion "^~1.0.0" = "~1.0.0" := by
  refine ⟨by decide, by decide, by decide⟩

/-! ### Claim C7 -/

theorem length_filter_dt (l : List ScanRecord)
    (h : ∀ r ∈ l, r.dependencyType = "direct" ∨ r.dependencyType = "transitive") :
    (l.filter (fun r => r.dependencyType == "direct")).length +
      (l.filter (fun r => r.dependencyType == "transitive")).length = l.length := by
  induction l with
  | nil => simp
  | cons r l ih =>
    have hrest := ih (fun r' hr' => h r' (by simp [hr']))
    rw [List.filter_cons, List.filter_cons]
    rcases h r (by simp) with hd | ht
    · have h1 : (r.dependencyType == "direct") = true := by simp [hd]
      have h2 : (r.dependencyType == "transitive") = false := by simp [hd]
      rw [h1, h2]
      simp only [if_pos, Bool.false_eq_true, if_false, List.length_cons]
      omega
    · have h1 : (r.dependencyType == "direct") = false := by simp [ht]
      have h2 : (r.dependencyType == "transitive") = true := by simp [ht]
      rw [h1, h2]
      simp only [if_pos, Bool.false_eq_true, if_false, List.length_cons]
      omega

/-- C7 (confirmed): the summary computed by `saveResults` is a partition —
direct + transitive = total = number of records, vulnerableDirect +
vulnerableTransitive = vulnerablePackages, and a record counts as vulnerable
iff its vulnerabilityCount is positive. -/
theorem saveResults_partition (scanDate : String) (results : List ScanRecord)
    (h : ∀ r ∈ results, r.dependencyType = "direct" ∨ r.dependencyType = "transitive") :
    (buildReport scanDate results).summary.totalPackages = results.length
    ∧ (buildReport scanDate results).summary.directDependencies +
        (buildReport scanDate results).summary.transitiveDependencies =
        (buildReport scanDate results).summary.totalPackages
    ∧ (buildReport scanDate results).summary.vulnerableDirect +
        (buildReport scanDate results).summary.vulnerableTransitive =
        (buildReport scanDate results).summary.vulnerablePackages
    ∧ (buildReport scanDate results).summary.vulnerablePackages =
        (results.filter (fun r => decide (0 < r.vulnerabilityCount))).length
    ∧ ∀ r ∈ results,
        (0 < r.vulnerabilityCount ↔
          r ∈ results.filter (fun r => decide (0 < r.vulnerabilityCount))) := by
  refine ⟨rfl, ?_, ?_, rfl, ?_⟩
  · exact length_filter_dt results h
  · exact length_filter_dt (results.filter (fun r => decide (0 < r.vulnerabilityCount)))
      (fun r hr => h r (List.mem_of_mem_filter hr))
  · intro r hr
    rw [List.mem_filter]
    constructor
    · intro hv
      exact ⟨hr, by simpa using hv⟩
    · intro hv
      simpa using hv.2

/-- C7 witness: the theorem applied to a two-record list (one direct clean
record, one transitive vulnerable record). -/
theorem saveResults_partition_witness :
    (buildReport "2025-01-01T00:00:00Z" [sampleDirectRecord, sampleVulnRecord]).summary.totalPackages =
      [sampleDirectRecord, sampleVulnRecord].length
    ∧ (buildReport "2025-01-01T00:00:00Z" [sampleDirectRecord, sampleVulnRecord]).summary.directDependencies +
        (buildReport "2025-01-01T00:00:00Z" [sampleDirectRecord, sampleVulnRecord]).summary.transitiveDependencies =
        (buildReport "2025-01-01T00:00:00Z" [sampleDirectRecord, sampleVulnRecord]).summary.totalPackages :=
  ⟨(saveResults_partition "2025-01-01T00:00:00Z" [sampleDirectRecord, sampleVulnRecord]
      (by decide)).1,
   (saveResults_partition "2025-01-01T00:00:00Z" [sampleDirectRecord, sampleVulnRecord]
      (by decide)).2.1⟩

/-! ### Claim C8 -/

theorem le_records_trans (parseDate : String → Int) :
    ∀ a b c : ScanRecord,
      decide (parseDate a.publishedAt ≤ parseDate b.publishedAt) = true →
      decide (parseDate b.publishedAt ≤ parseDate c.publishedAt) = true →
      decide (parseDate a.publishedAt ≤ parseDate c.publishedAt) = true := by
  intro a b c hab hbc
  rw [decide_eq_true_eq] at hab hbc ⊢
  exact le_trans hab hbc

theorem le_records_total (parseDate : String → Int) :
    ∀ a b : ScanRecord,
      (decide (parseDate a.publishedAt ≤ parseDate b.publishedAt) ||
        decide (parseDate b.publishedAt ≤ parseDate a.publishedAt)) = true := by
  intro a b
  rcases le_total (parseDate a.publishedAt) (parseDate b.publishedAt) with h | h
  · simp [h]
  · simp [h]

/-- C8 (confirmed): the "oldest dependencies" view keeps only records whose
publication date is known, is sorted ascending by the parsed publication
timestamp, has length `min 5 (number of known-date records)` (truncation to
the first 5), breaks ties by stable input order, and is empty — with no
error — when no record has a known date. -/
theorem oldestView_spec (parseDate : String → Int) (results : List ScanRecord) :
    (∀ r ∈ oldestView parseDate results, r.publishedAt ≠ "Unknown")
    ∧ (oldestView parseDate results).Pairwise
        (fun a b => parseDate a.publishedAt ≤ parseDate b.publishedAt)
    ∧ (oldestView parseDate results).length =
        min 5 (results.filter (fun r => r.publishedAt != "Unknown")).length
    ∧ (∀ a b : ScanRecord,
        [a, b].Sublist (results.filter (fun r => r.publishedAt != "Unknown")) →
        parseDate a.publishedAt = parseDate b.publishedAt →
        [a, b].Sublist ((results.filter (fun r => r.publishedAt != "Unknown")).mergeSort
          (fun a b => decide (parseDate a.publishedAt ≤ parseDate b.publishedAt))))
    ∧ ((∀ r ∈ results, r.publishedAt = "Unknown") → oldestView parseDate results = []) := by
  refine ⟨?_, ?_, ?_, ?_, ?_⟩
  · intro r hr
    rw [oldestView] at hr
    have hr1 : r ∈ (results.filter (fun r => r.publishedAt != "Unknown")).mergeSort
        (fun a b => decide (parseDate a.publishedAt ≤ parseDate b.publishedAt)) :=
      List.take_subset 5 _ hr
    have hr2 : r ∈ results.filter (fun r => r.publishedAt != "Unknown") :=
      (List.mergeSort_perm _ _).subset hr1
    have := (List.mem_filter.mp hr2).2
    simpa using this
  · have hsorted := List.sorted_mergeSort (le_records_trans parseDate)
      (le_records_total parseDate) (results.filter (fun r => r.publishedAt != "Unknown"))
    have htake := hsorted.sublist (List.take_sublist 5 _)
    exact htake.imp (fun hab => decide_eq_true_eq.mp hab)
  · rw [oldestView, List.length_take, (List.mergeSort_perm _ _).length_eq]
  · intro a b hsub heq
    apply List.sublist_mergeSort (le_records_trans parseDate) (le_records_total parseDate)
      _ hsub
    have hle : decide (parseDate a.publishedAt ≤ parseDate b.publishedAt) = true := by
      rw [decide_eq_true_eq, heq]
    simp only [List.pairwise_cons, List.mem_singleton]
    refine ⟨?_, by simp, List.Pairwise.nil⟩
    intro b' hb'
    rw [hb']
    exact hle
  · intro hall
    have hnil : results.filter (fun r => r.publishedAt != "Unknown") = [] := by
      rw [List.filter_eq_nil_iff]
      intro r hr
      simp [hall r hr]
    rw [oldestView, hnil, List.mergeSort_nil]
    rfl

/-- C8 witness: the theorem applied to a one-record list whose only record
has an unknown publication date — the view is empty. -/
theorem oldestView_spec_witness :
    oldestView (fun _ => 0) [sampleDirectRecord] = [] :=
  (oldestView_spec (fun _ => 0) [sampleDirectRecord]).2.2.2.2 (by decide)

/-! ### Claim C9 -/

theorem asNat_natCast (n : Nat) : asNat (Json.num (n : Rat)) = some n := by
  simp [asNat, Rat.den_natCast, Rat.num_natCast, Int.toNat_natCast, Int.natCast_nonneg]

theorem decodeAdvisory_encode (a : Advisory) : decodeAdvisory (encodeAdvisory a) = some a := by
  rcases a with ⟨i, t, s, c, m⟩
  cases i <;> cases t <;> cases s <;> cases c <;> cases m <;> rfl

theorem mapM_decodeAdvisory (l : List Advisory) :
    (l.map encodeAdvisory).mapM decodeAdvisory = some l := by
  induction l with
  | nil => rfl
  | cons a l ih =>
    rw [List.map_cons, List.mapM_cons, decodeAdvisory_encode, ih]
    rfl

theorem decodeRecord_encode (r : ScanRecord) : decodeRecord (encodeRecord r) = some r := by
  rcases r with ⟨p, c, d, pub, isDef, vulns, n⟩
  have hstep : decodeRecord (encodeRecord ⟨p, c, d, pub, isDef, vulns, n⟩) =
      ((vulns.map encodeAdvisory).mapM decodeAdvisory).bind
        (fun vs => (asNat (Json.num (n : Rat))).bind
          (fun n' => some ⟨p, c, d, pub, isDef, vs, n'⟩)) := rfl
  rw [hstep, mapM_decodeAdvisory]
  simp [asNat_natCast]

theorem mapM_decodeRecord (l : List ScanRecord) :
    (l.map encodeRecord).mapM decodeRecord = some l := by
  induction l with
  | nil => rfl
  | cons r l ih =>
    rw [List.map_cons, List.mapM_cons, decodeRecord_encode, ih]
    rfl

theorem decodeSummary_encode (s : ScanSummary) : decodeSummary (encodeSummary s) = some s := by
  rcases s with ⟨t, d, tr, v, vd, vt⟩
  have hstep : decodeSummary (encodeSummary ⟨t, d, tr, v, vd, vt⟩) =
      (asNat (Json.num (t : Rat))).bind
        (fun t' => (asNat (Json.num (d : Rat))).bind
          (fun d' => (asNat (Json.num (tr : Rat))).bind
            (fun tr' => (asNat (Json.num (v : Rat))).bind
              (fun v' => (asNat (Json.num (vd : Rat))).bind
                (fun vd' => (asNat (Json.num (vt : Rat))).bind
                  (fun vt' => some ⟨t', d', tr', v', vd', vt'⟩)))))) := rfl
  rw [hstep]
  simp [asNat_natCast]

/-- C9 (confirmed): serializing the report built by `saveResults` to the
persisted document form and re-reading it yields the in-memory report —
no field of any record or advisory is lost or altered. -/
theorem saveResults_roundtrip (scanDate : String) (results : List ScanRecord) :
    decodeReport (encodeReport (buildReport scanDate results)) =
      some (buildReport scanDate results) := by
  generalize buildReport scanDate results = rep
  rcases rep with ⟨d, s, rs⟩
  have hstep : decodeReport (encodeReport ⟨d, s, rs⟩) =
      (decodeSummary (encodeSummary s)).bind
        (fun s' => ((rs.map encodeRecord).mapM decodeRecord).bind
          (fun rs' => some ⟨d, s', rs'⟩)) := rfl
  rw [hstep, decodeSummary_encode, mapM_decodeRecord]
  rfl

/-! ### Claim C10 -/

/-- C10 (confirmed): in direct-only mode (`includeTransitive = false`) the
scanned package set is exactly the manifest's merged dependency mapping, the
lock file is never consulted (the result is independent of it), and every
record's dependencyType is "direct". -/
theorem scan_direct_only (client : EnrichClient) (pkg : PackageJson)
    (lock lock' : Option PackageLock) :
    scanDependencies client pkg lock false = scanDependencies client pkg lock' false
    ∧ (scanDependencies client pkg lock false).map (fun r => (r.package, r.currentVersion)) =
        getDependencies pkg
    ∧ ∀ r ∈ scanDependencies client pkg lock false, r.dependencyType = "direct" := by
  refine ⟨rfl, ?_, ?_⟩
  · show (scanLoop client [] (getDependencies pkg)).map _ = _
    rw [scanLoop_eq_map, List.map_map]
    have hcomp : ((fun r : ScanRecord => (r.package, r.currentVersion)) ∘
        recordFor client []) = fun e : String × String => e := by
      funext e
      rfl
    rw [hcomp, List.map_id']
  · intro r hr
    have hscan : scanDependencies client pkg lock false =
        scanLoop client [] (getDependencies pkg) := rfl
    rw [hscan, scanLoop_eq_map] at hr
    rcases List.mem_map.mp hr with ⟨e, _, her⟩
    subst her
    rfl

/-- C10 witness: the theorem applied to the scenario manifest with two
different lock inputs, and to the concrete axios record of the direct-only
scan. -/
theorem scan_direct_only_witness :
    (scanDependencies failingClient scenarioPkg (some scenarioLock) false =
      scanDependencies failingClient scenarioPkg none false)
    ∧ (recordFor failingClient [] ("axios", "^1.12.2")).dependencyType = "direct" :=
  ⟨(scan_direct_only failingClient scenarioPkg (some scenarioLock) none).1,
   (scan_direct_only failingClient scenarioPkg (some scenarioLock) none).2.2 _ (by decide)⟩

end NpmScan
